import Mathlib

/-!
Verification of the plugin subsystem of `scriptor.py` (classes `Plugin`,
`PluginAPI`, `PluginManager`).  The embedding models the manager state as a
pair of insertion-ordered association lists: the in-memory plugin table
(`self.plugins`) and the contents of the on-disk plugins root (`PLUGINS_DIR`).
Hook callbacks are modelled as functions from the argument list to a pair of
(emitted outputs, optional raised exception); hook dispatch produces an event
trace recording each invocation, each output and each logged error, so that
isolation and ordering properties can be stated about the trace.
-/

namespace Scriptor

/-- Arguments passed to a hook callback (`*args` in the source, used with
string arguments such as file paths). -/
abbrev Args := List String

/-- A hook callback: applied to the arguments it emits a list of outputs
(its observable side effects) and optionally raises an exception carrying a
message.  An uninvokable stored value is modelled as a callback that raises
on every input. -/
abbrev Callback := Args → List String × Option String

/-- The `Plugin` record of the source: name, install path, loaded module
(modelled as a flag: `None` initially, set after a successful load) and the
hook map, an insertion-ordered association list from hook name to the list
of callbacks in registration order. -/
structure Plugin where
  name : String
  path : String
  module : Bool
  hooks : List (String × List Callback)

/-- `Plugin.__init__(name, path)`: module is `None`, hooks empty. -/
def mkPlugin (name path : String) : Plugin :=
  { name := name, path := path, module := false, hooks := [] }

/-- First-match association-list lookup (Python `dict` access). -/
def lookupA {α : Type} : List (String × α) → String → Option α
  | [], _ => none
  | (k, v) :: rest, key => if k = key then some v else lookupA rest key

/-- Python `d[k] = v` on an insertion-ordered dict: replace in place if the
key is present, otherwise append at the end. -/
def dictInsert {α : Type} (m : List (String × α)) (k : String) (v : α) :
    List (String × α) :=
  if m.any (fun kv => kv.1 = k) then
    m.map (fun kv => if kv.1 = k then (k, v) else kv)
  else m ++ [(k, v)]

/-- Python `d.pop(k)` / removal of a key. -/
def dictErase {α : Type} (m : List (String × α)) (k : String) :
    List (String × α) :=
  m.filter (fun kv => kv.1 ≠ k)

/-- Keys of an association list, in order. -/
def keys {α : Type} (m : List (String × α)) : List String :=
  m.map (fun kv => kv.1)

/-- `PluginAPI.register_hook(name, func)`: create the hook's entry if absent,
then append the callback.  Total: it cannot fail for any name or callback. -/
def hooksAppend (hs : List (String × List Callback)) (n : String)
    (f : Callback) : List (String × List Callback) :=
  if hs.any (fun kv => kv.1 = n) then
    hs.map (fun kv => if kv.1 = n then (kv.1, kv.2 ++ [f]) else kv)
  else hs ++ [(n, [f])]

/-- `register_hook` as an operation on the owning `Plugin` record (the only
state the source method touches). -/
def registerHook (p : Plugin) (n : String) (f : Callback) : Plugin :=
  { p with hooks := hooksAppend p.hooks n f }

/-- The `PluginAPI.app_name` property. -/
def appName : String := "Scriptor"

/-- The behaviour of a plugin's `register(api)` function: the sequence of
`api.register_hook` calls it performs, in order, followed by an optional
raised exception.  (The capability object exposes only `register_hook` and
the constant `app_name`, so a deterministic register function is fully
described this way.) -/
structure RegisterFn where
  calls : List (String × Callback)
  raises : Option String

/-- The executed `plugin-main.py` module: whether it exposes a `register`
function and, if so, that function's behaviour. -/
structure PluginModule where
  registerFn : Option RegisterFn

/-- The semantic content of one plugin directory on disk: whether
`plugin-main.py` exists in it, and the result of executing that file
(a raised exception, or the resulting module). -/
structure PluginDir where
  hasEntrypoint : Bool
  exec : Except String PluginModule

/-- An entry of the plugins root: a plain file (skipped by discovery) or a
plugin directory. -/
inductive DiskEntry where
  | file
  | dir (d : PluginDir)

/-- The state owned by `PluginManager`: the in-memory plugin table
`self.plugins` and the contents of the on-disk plugins root, both as
insertion-ordered association lists keyed by name. -/
structure MState where
  plugins : List (String × Plugin)
  disk : List (String × DiskEntry)

/-- Errors of `load_plugin_from_dir`: `FileNotFoundError` for a missing
`plugin-main.py`, and the three `RuntimeError` cases. -/
inductive LoadError where
  | missingEntrypoint
  | execFailed (msg : String)
  | noRegisterFn
  | registerFailed (msg : String)
deriving DecidableEq

/-- Running a `register(api)` body against a plugin record: fold the
`register_hook` calls it makes, in order. -/
def runRegister (p : Plugin) (calls : List (String × Callback)) : Plugin :=
  calls.foldl (fun q c => registerHook q c.1 c.2) p

/-- `PluginManager.load_plugin_from_dir(path)`.  The state is threaded
explicitly; a raised exception is returned as `some error` together with the
manager state as mutated up to the raise (the source mutates no manager
state before its raises; the table insert is the last statement). -/
def loadPluginFromDir (st : MState) (dirName : String) :
    MState × Option LoadError :=
  match lookupA st.disk dirName with
  | some (DiskEntry.dir d) =>
    if d.hasEntrypoint then
      match d.exec with
      | Except.error e => (st, some (LoadError.execFailed e))
      | Except.ok m =>
        match m.registerFn with
        | none => (st, some LoadError.noRegisterFn)
        | some rf =>
          let plugin := runRegister (mkPlugin dirName dirName) rf.calls
          match rf.raises with
          | some e => (st, some (LoadError.registerFailed e))
          | none =>
            ({ st with
                plugins := dictInsert st.plugins dirName
                  { plugin with module := true } }, none)
    else (st, some LoadError.missingEntrypoint)
  | _ => (st, some LoadError.missingEntrypoint)

/-- One step of `load_all_plugins`: skip non-directories, attempt a load on a
directory, and on failure append to the printed failure log instead of
propagating. -/
def loadAllStep (acc : MState × List (String × LoadError))
    (entry : String × DiskEntry) : MState × List (String × LoadError) :=
  match entry.2 with
  | DiskEntry.file => acc
  | DiskEntry.dir _ =>
    match loadPluginFromDir acc.1 entry.1 with
    | (st', some e) => (st', acc.2 ++ [(entry.1, e)])
    | (st', none) => (st', acc.2)

/-- `PluginManager.load_all_plugins()`: clear the table, then iterate the
entries of the plugins root, catching and logging per-directory failures.
Returns the final state and the failure log. -/
def loadAllPlugins (st : MState) : MState × List (String × LoadError) :=
  st.disk.foldl loadAllStep ({ st with plugins := [] }, [])

/-- One candidate destination name of `install_plugin`'s collision loop:
`f"{base}_{idx}"`. -/
def cand (base : String) (idx : Nat) : String :=
  base ++ "_" ++ Nat.repr idx

/-- The `while dest.exists()` loop of `install_plugin`, fuelled.  With fuel
greater than the number of taken names the fuel never runs out (proved
below); on exhaustion it returns the current candidate. -/
def freshLoop (taken : List String) (base : String) :
    Nat → Nat → String
  | idx, 0 => cand base idx
  | idx, fuel + 1 =>
    if cand base idx ∈ taken then freshLoop taken base (idx + 1) fuel
    else cand base idx

/-- Destination-name choice of `install_plugin`: the archive's stem, or the
first free suffixed candidate `base_1`, `base_2`, … -/
def freshName (taken : List String) (base : String) : String :=
  if base ∈ taken then freshLoop taken base 1 (taken.length + 1) else base

/-- Errors of `install_plugin`: missing archive file (`FileNotFoundError`),
archive without root `plugin-main.py` (`RuntimeError`), and a propagated
load error. -/
inductive InstallError where
  | archiveMissing
  | packageFormat
  | loadFailed (e : LoadError)
deriving DecidableEq

/-- An installable `.scpl` archive: whether the path exists, the archive
base name (`Path.stem`), and the plugin directory its contents extract to
(the extracted directory has an entrypoint exactly when `plugin-main.py` is
in the archive's name list). -/
structure Archive where
  present : Bool
  stem : String
  contents : PluginDir

/-- `PluginManager.install_plugin(scpl_path)`: check the archive exists and
contains `plugin-main.py` at root, pick a fresh destination directory name,
extract, then load the new directory, propagating any load error.  Returns
the destination name on success. -/
def installPlugin (st : MState) (a : Archive) :
    MState × Except InstallError String :=
  if a.present then
    if a.contents.hasEntrypoint then
      let dest := freshName (keys st.disk) a.stem
      let st1 : MState :=
        { st with disk := st.disk ++ [(dest, DiskEntry.dir a.contents)] }
      match loadPluginFromDir st1 dest with
      | (st2, some e) => (st2, Except.error (InstallError.loadFailed e))
      | (st2, none) => (st2, Except.ok dest)
    else (st, Except.error InstallError.packageFormat)
  else (st, Except.error InstallError.archiveMissing)

/-- Errors of `uninstall_plugin`: `KeyError` for an unknown name, and a
failing `shutil.rmtree` when the recorded path is not on disk. -/
inductive UninstallError where
  | notFound
  | rmtreeFailed
deriving DecidableEq

/-- `PluginManager.uninstall_plugin(name)`: `KeyError` if the name is not in
the table; otherwise pop the record, then recursively delete its directory
(`shutil.rmtree` raises if the path is gone, after the pop). -/
def uninstallPlugin (st : MState) (name : String) :
    MState × Except UninstallError Bool :=
  match lookupA st.plugins name with
  | none => (st, Except.error UninstallError.notFound)
  | some p =>
    let st1 : MState := { st with plugins := dictErase st.plugins name }
    if p.path ∈ keys st1.disk then
      ({ st1 with disk := dictErase st1.disk p.path }, Except.ok true)
    else (st1, Except.error UninstallError.rmtreeFailed)

/-- Events observable during a `call_hook` dispatch: a callback invocation
(with the owning plugin's name, the hook name and the arguments), an output
emitted by a callback, and an error logged for a raising callback (the
`print` carries the plugin's name and the hook name). -/
inductive Event where
  | invoked (plugin hook : String) (args : Args)
  | output (s : String)
  | errorLogged (plugin hook : String)
deriving DecidableEq

/-- Trace of one callback invocation inside `call_hook`: the invocation
itself, the callback's outputs, and — when it raises — the caught and
logged error.  The exception is never re-raised. -/
def runCallback (pname hook : String) (args : Args) (f : Callback) :
    List Event :=
  let r := f args
  Event.invoked pname hook args :: r.1.map Event.output ++
    (match r.2 with
     | some _ => [Event.errorLogged pname hook]
     | none => [])

/-- The callback list a plugin holds for a hook name; `hooks.get(name)`
returning `None` and an empty list both dispatch nothing. -/
def hookFuncs (p : Plugin) (hook : String) : List Callback :=
  match lookupA p.hooks hook with
  | none => []
  | some fs => fs

/-- Dispatch over a list of table entries, in order. -/
def dispatchList (ps : List (String × Plugin)) (hook : String)
    (args : Args) : List Event :=
  ps.flatMap (fun kv => (hookFuncs kv.2 hook).flatMap (runCallback kv.2.name hook args))

/-- `PluginManager.call_hook(hook_name, *args)`: iterate the plugin table in
order, dispatch every callback registered for the hook, isolating and
logging per-callback failures.  Total: it returns a trace and never
propagates a callback's exception. -/
def callHook (st : MState) (hook : String) (args : Args) : List Event :=
  dispatchList st.plugins hook args

/-! ### Association-list lemmas -/

theorem lookupA_append_left {α : Type} {m1 m2 : List (String × α)} {k : String}
    {v : α} (h : lookupA m1 k = some v) : lookupA (m1 ++ m2) k = some v := by
  induction m1 with
  | nil => simp [lookupA] at h
  | cons a t ih =>
    obtain ⟨k1, v1⟩ := a
    by_cases hk : k1 = k
    · simp [lookupA, hk] at h ⊢; exact h
    · simp [lookupA, hk] at h ⊢; exact ih h

theorem lookupA_append_right {α : Type} {m1 m2 : List (String × α)}
    {k : String} (h : lookupA m1 k = none) :
    lookupA (m1 ++ m2) k = lookupA m2 k := by
  induction m1 with
  | nil => simp [lookupA]
  | cons a t ih =>
    obtain ⟨k1, v1⟩ := a
    by_cases hk : k1 = k
    · simp [lookupA, hk] at h
    · simp [lookupA, hk] at h ⊢; exact ih h

theorem lookupA_eq_none_iff {α : Type} {m : List (String × α)} {k : String} :
    lookupA m k = none ↔ k ∉ keys m := by
  induction m with
  | nil => simp [lookupA, keys]
  | cons a t ih =>
    obtain ⟨k1, v1⟩ := a
    by_cases hk : k1 = k
    · simp [lookupA, hk, keys]
    · simp [lookupA, hk, keys] at ih ⊢
      exact ⟨fun h => ⟨fun he => hk he.symm, ih.mp h⟩, fun h => ih.mpr h.2⟩

theorem lookupA_isSome_of_mem_keys {α : Type} {m : List (String × α)}
    {k : String} (h : k ∈ keys m) : (lookupA m k).isSome := by
  cases hl : lookupA m k with
  | none => exact absurd (lookupA_eq_none_iff.mp hl) (not_not_intro h)
  | some v => rfl

theorem any_key_iff {α : Type} (m : List (String × α)) (k : String) :
    (m.any (fun kv => kv.1 = k) = true) ↔ k ∈ keys m := by
  simp [keys, List.any_eq_true, List.mem_map]

theorem dictInsert_of_not_mem {α : Type} {m : List (String × α)} {k : String}
    (h : k ∉ keys m) (v : α) : dictInsert m k v = m ++ [(k, v)] := by
  unfold dictInsert
  rw [if_neg]
  intro hc
  exact h ((any_key_iff m k).mp hc)

theorem lookupA_mem_of_nodup {α : Type} {m : List (String × α)}
    (hnd : (keys m).Nodup) {kv : String × α} (h : kv ∈ m) :
    lookupA m kv.1 = some kv.2 := by
  induction m with
  | nil => cases h
  | cons a t ih =>
    have hnd2 : a.1 ∉ keys t ∧ (keys t).Nodup := by
      have : (a.1 :: keys t).Nodup := by
        simpa only [keys, List.map_cons] using hnd
      exact List.nodup_cons.mp this
    rcases List.mem_cons.mp h with h1 | h1
    · subst h1
      obtain ⟨k1, v1⟩ := kv
      simp [lookupA]
    · have hk : a.1 ≠ kv.1 := by
        intro he
        refine hnd2.1 ?_
        rw [he]
        exact List.mem_map_of_mem (fun x => x.1) h1
      obtain ⟨k1, v1⟩ := a
      simp only [lookupA]
      rw [if_neg hk]
      exact ih hnd2.2 h1

/-! ### `register_hook` lemmas -/

/-- Map used by `hooksAppend`'s update branch. -/
theorem lookupA_hooks_map_ne {n : String} {f : Callback}
    (t : List (String × List Callback)) {h : String} (hne : h ≠ n) :
    lookupA (t.map (fun kv => if kv.1 = n then (kv.1, kv.2 ++ [f]) else kv)) h
      = lookupA t h := by
  induction t with
  | nil => rfl
  | cons a t ih =>
    obtain ⟨k1, v1⟩ := a
    simp only [List.map_cons]
    by_cases hk : k1 = n
    · rw [if_pos hk]
      have hkh : ¬(k1 = h) := by
        rw [hk]; exact fun he => hne he.symm
      simp only [lookupA]
      rw [if_neg hkh, if_neg hkh]
      exact ih
    · rw [if_neg hk]
      simp only [lookupA]
      by_cases hh : k1 = h
      · rw [if_pos hh, if_pos hh]
      · rw [if_neg hh, if_neg hh]
        exact ih

theorem lookupA_hooks_map_self {n : String} {f : Callback}
    (t : List (String × List Callback)) :
    lookupA (t.map (fun kv => if kv.1 = n then (kv.1, kv.2 ++ [f]) else kv)) n
      = (lookupA t n).map (fun v => v ++ [f]) := by
  induction t with
  | nil => rfl
  | cons a t ih =>
    obtain ⟨k1, v1⟩ := a
    simp only [List.map_cons]
    by_cases hk : k1 = n
    · rw [if_pos hk]
      simp only [lookupA]
      rw [if_pos hk, if_pos hk]
      rfl
    · rw [if_neg hk]
      simp only [lookupA]
      rw [if_neg hk, if_neg hk]
      exact ih

theorem funcs_hooksAppend (hs : List (String × List Callback)) (n : String)
    (f : Callback) (h : String) :
    (lookupA (hooksAppend hs n f) h).getD [] =
      if h = n then (lookupA hs h).getD [] ++ [f]
      else (lookupA hs h).getD [] := by
  unfold hooksAppend
  by_cases ha : hs.any (fun kv => kv.1 = n) = true
  · rw [if_pos ha]
    by_cases hh : h = n
    · subst hh
      rw [lookupA_hooks_map_self]
      have hm : h ∈ keys hs := (any_key_iff hs h).mp ha
      obtain ⟨v, hv⟩ := Option.isSome_iff_exists.mp (lookupA_isSome_of_mem_keys hm)
      simp [hv]
    · rw [lookupA_hooks_map_ne hs hh]
      simp [hh]
  · rw [if_neg ha]
    have hn : lookupA hs n = none :=
      lookupA_eq_none_iff.mpr (fun hm => ha ((any_key_iff hs n).mpr hm))
    by_cases hh : h = n
    · subst hh
      rw [lookupA_append_right hn]
      simp [lookupA, hn]
    · by_cases hl : lookupA hs h = none
      · rw [lookupA_append_right hl]
        have hnh : ¬(n = h) := fun he => hh he.symm
        simp [lookupA, hh, hl, hnh]
      · obtain ⟨v, hv⟩ := Option.ne_none_iff_exists'.mp hl
        rw [lookupA_append_left hv]
        simp [hv, hh]

theorem hookFuncs_eq_getD (p : Plugin) (h : String) :
    hookFuncs p h = (lookupA p.hooks h).getD [] := by
  unfold hookFuncs
  cases lookupA p.hooks h <;> rfl

theorem hookFuncs_registerHook (p : Plugin) (n : String) (f : Callback)
    (h : String) :
    hookFuncs (registerHook p n f) h =
      if h = n then hookFuncs p h ++ [f] else hookFuncs p h := by
  rw [hookFuncs_eq_getD, hookFuncs_eq_getD, registerHook]
  exact funcs_hooksAppend p.hooks n f h

theorem registerHook_name (p : Plugin) (n : String) (f : Callback) :
    (registerHook p n f).name = p.name := rfl

theorem registerHook_path (p : Plugin) (n : String) (f : Callback) :
    (registerHook p n f).path = p.path := rfl

theorem registerHook_module (p : Plugin) (n : String) (f : Callback) :
    (registerHook p n f).module = p.module := rfl

theorem runRegister_fields (calls : List (String × Callback)) (p : Plugin) :
    (runRegister p calls).name = p.name ∧ (runRegister p calls).path = p.path ∧
      (runRegister p calls).module = p.module := by
  induction calls generalizing p with
  | nil => exact ⟨rfl, rfl, rfl⟩
  | cons c cs ih => exact ih (registerHook p c.1 c.2)

theorem hookFuncs_runRegister (calls : List (String × Callback)) (p : Plugin)
    (h : String) :
    hookFuncs (runRegister p calls) h =
      hookFuncs p h ++
        ((calls.filter (fun c => c.1 = h)).map (fun c => c.2)) := by
  induction calls generalizing p with
  | nil => simp [runRegister]
  | cons c cs ih =>
    have hstep : runRegister p (c :: cs) = runRegister (registerHook p c.1 c.2) cs := rfl
    rw [hstep, ih, hookFuncs_registerHook]
    by_cases hc : c.1 = h
    · simp [hc, List.filter_cons]
    · have : ¬(h = c.1) := fun he => hc he.symm
      simp [hc, this, List.filter_cons]

/-! ### Dispatch-trace lemmas -/

theorem dispatchList_append (A B : List (String × Plugin)) (hook : String)
    (args : Args) :
    dispatchList (A ++ B) hook args =
      dispatchList A hook args ++ dispatchList B hook args := by
  unfold dispatchList
  exact List.flatMap_append A B _

theorem count_invoked_runCallback (pname hook : String) (args : Args)
    (f : Callback) (q : String) :
    (runCallback pname hook args f).count (Event.invoked q hook args) =
      if pname = q then 1 else 0 := by
  unfold runCallback
  have h1 : ((f args).1.map Event.output).count (Event.invoked q hook args)
      = 0 := by
    rw [List.count_eq_zero]
    intro hmem
    rcases List.mem_map.mp hmem with ⟨s, _, heq⟩
    cases heq
  have h2 : ((match (f args).2 with
      | some _ => [Event.errorLogged pname hook]
      | none => ([] : List Event))).count (Event.invoked q hook args) = 0 := by
    cases (f args).2 with
    | none => rfl
    | some e => simp
  simp only [List.count_cons, List.count_append, h1, h2]
  by_cases h : pname = q
  · subst h; simp
  · have : ¬(Event.invoked pname hook args = Event.invoked q hook args) := by
      intro he; cases he; exact h rfl
    simp [h, this]

theorem count_invoked_funcs (pname hook : String) (args : Args) (q : String)
    (funcs : List Callback) :
    (funcs.flatMap (runCallback pname hook args)).count
        (Event.invoked q hook args) =
      if pname = q then funcs.length else 0 := by
  induction funcs with
  | nil => simp
  | cons g gs ih =>
    simp only [List.flatMap_cons, List.count_append, ih,
      count_invoked_runCallback, List.length_cons]
    by_cases h : pname = q <;> simp [h, Nat.add_comm]

theorem count_invoked_dispatchList (ps : List (String × Plugin))
    (hook : String) (args : Args) (q : String) :
    (dispatchList ps hook args).count (Event.invoked q hook args) =
      (ps.map (fun kv =>
        if kv.2.name = q then (hookFuncs kv.2 hook).length else 0)).sum := by
  induction ps with
  | nil => rfl
  | cons kv t ih =>
    unfold dispatchList at ih ⊢
    simp only [List.flatMap_cons, List.count_append, List.map_cons,
      List.sum_cons, ih, count_invoked_funcs]

theorem count_invoked_of_nodup (ps : List (String × Plugin)) (hook : String)
    (args : Args) (hnd : (ps.map (fun kv => kv.2.name)).Nodup)
    (B : String × Plugin) (hB : B ∈ ps) :
    (dispatchList ps hook args).count (Event.invoked B.2.name hook args) =
      (hookFuncs B.2 hook).length := by
  rw [count_invoked_dispatchList]
  induction ps with
  | nil => cases hB
  | cons kv t ih =>
    have hnd2 : kv.2.name ∉ t.map (fun kv => kv.2.name) ∧
        (t.map (fun kv => kv.2.name)).Nodup := by
      refine List.nodup_cons.mp ?_
      simpa only [List.map_cons] using hnd
    rcases List.mem_cons.mp hB with h1 | h1
    · subst h1
      simp only [List.map_cons, List.sum_cons, if_pos rfl]
      have hz : (t.map (fun kv =>
          if kv.2.name = B.2.name then (hookFuncs kv.2 hook).length else 0)).sum
          = 0 := by
        apply List.sum_eq_zero
        intro x hx
        rcases List.mem_map.mp hx with ⟨kv2, hkv2, hxe⟩
        have hne : ¬(kv2.2.name = B.2.name) := by
          intro he
          exact hnd2.1 (he ▸ List.mem_map_of_mem (fun kv => kv.2.name) hkv2)
        rw [if_neg hne] at hxe
        exact hxe.symm
      rw [hz]
      simp
    · have hne : ¬(kv.2.name = B.2.name) := by
        intro he
        exact hnd2.1 (he ▸ List.mem_map_of_mem (fun kv => kv.2.name) h1)
      simp only [List.map_cons, List.sum_cons, if_neg hne]
      rw [ih hnd2.2 h1]
      simp

theorem errorLogged_mem_dispatchList (ps : List (String × Plugin))
    (hook : String) (args : Args) (A : String × Plugin) (hA : A ∈ ps)
    (f : Callback) (hf : f ∈ hookFuncs A.2 hook)
    (hraise : ((f args).2).isSome) :
    Event.errorLogged A.2.name hook ∈ dispatchList ps hook args := by
  unfold dispatchList
  refine List.mem_flatMap.mpr ⟨A, hA, ?_⟩
  refine List.mem_flatMap.mpr ⟨f, hf, ?_⟩
  unfold runCallback
  rcases Option.isSome_iff_exists.mp hraise with ⟨e, he⟩
  simp [he]

/-! ### Load-success characterization -/

/-- The plugin record produced by a fully successful load of a directory
whose `register` performs the given calls. -/
def loadedPlugin (dirName : String) (rf : RegisterFn) : Plugin :=
  { runRegister (mkPlugin dirName dirName) rf.calls with module := true }

/-- The outcome of a single-directory load, as a function of the directory's
content alone: the error raised, or the plugin record produced.  Proved
equivalent to `loadPluginFromDir` below. -/
def loadOutcome (dirName : String) (d : PluginDir) : Except LoadError Plugin :=
  if d.hasEntrypoint then
    match d.exec with
    | Except.error e => Except.error (LoadError.execFailed e)
    | Except.ok m =>
      match m.registerFn with
      | none => Except.error LoadError.noRegisterFn
      | some rf =>
        match rf.raises with
        | some e => Except.error (LoadError.registerFailed e)
        | none => Except.ok (loadedPlugin dirName rf)
  else Except.error LoadError.missingEntrypoint

theorem loadPluginFromDir_eq (st : MState) (dirName : String) :
    loadPluginFromDir st dirName =
      match lookupA st.disk dirName with
      | some (DiskEntry.dir d) =>
        (match loadOutcome dirName d with
         | Except.error e => (st, some e)
         | Except.ok p =>
            ({ st with plugins := dictInsert st.plugins dirName p }, none))
      | _ => (st, some LoadError.missingEntrypoint) := by
  unfold loadPluginFromDir loadOutcome loadedPlugin
  cases lookupA st.disk dirName with
  | none => rfl
  | some entry =>
    cases entry with
    | file => rfl
    | dir d =>
      obtain ⟨ep, ex⟩ := d
      cases ep with
      | false => rfl
      | true =>
        cases ex with
        | error msg => rfl
        | ok m =>
          obtain ⟨orf⟩ := m
          cases orf with
          | none => rfl
          | some rf =>
            obtain ⟨calls, raises⟩ := rf
            cases raises with
            | none => rfl
            | some msg => rfl

theorem load_eq_of_lookup_none {st : MState} {dirName : String}
    (hl : lookupA st.disk dirName = none) :
    loadPluginFromDir st dirName = (st, some LoadError.missingEntrypoint) := by
  simp only [loadPluginFromDir_eq, hl]

theorem load_eq_of_lookup_file {st : MState} {dirName : String}
    (hl : lookupA st.disk dirName = some DiskEntry.file) :
    loadPluginFromDir st dirName = (st, some LoadError.missingEntrypoint) := by
  simp only [loadPluginFromDir_eq, hl]

theorem load_eq_of_outcome_error (st : MState) {dirName : String}
    {d : PluginDir} {e : LoadError}
    (hl : lookupA st.disk dirName = some (DiskEntry.dir d))
    (ho : loadOutcome dirName d = Except.error e) :
    loadPluginFromDir st dirName = (st, some e) := by
  simp only [loadPluginFromDir_eq, hl, ho]

theorem load_eq_of_outcome_ok (st : MState) {dirName : String}
    {d : PluginDir} {p : Plugin}
    (hl : lookupA st.disk dirName = some (DiskEntry.dir d))
    (ho : loadOutcome dirName d = Except.ok p) :
    loadPluginFromDir st dirName =
      ({ st with plugins := dictInsert st.plugins dirName p }, none) := by
  simp only [loadPluginFromDir_eq, hl, ho]

theorem loadPluginFromDir_success (st : MState) (dirName : String)
    (d : PluginDir) (m : PluginModule) (rf : RegisterFn)
    (hdisk : lookupA st.disk dirName = some (DiskEntry.dir d))
    (hep : d.hasEntrypoint = true) (hexec : d.exec = Except.ok m)
    (hrf : m.registerFn = some rf) (hnr : rf.raises = none) :
    loadPluginFromDir st dirName =
      ({ st with plugins :=
          dictInsert st.plugins dirName (loadedPlugin dirName rf) }, none) := by
  unfold loadPluginFromDir loadedPlugin
  rw [hdisk]
  simp [hep, hexec, hrf, hnr]

theorem hookFuncs_loadedPlugin (dirName : String) (rf : RegisterFn)
    (hook : String) :
    hookFuncs (loadedPlugin dirName rf) hook =
      (rf.calls.filter (fun c => c.1 = hook)).map (fun c => c.2) := by
  unfold loadedPlugin
  have h1 : hookFuncs { runRegister (mkPlugin dirName dirName) rf.calls
      with module := true } hook =
      hookFuncs (runRegister (mkPlugin dirName dirName) rf.calls) hook := rfl
  rw [h1, hookFuncs_runRegister]
  rfl

theorem name_loadedPlugin (dirName : String) (rf : RegisterFn) :
    (loadedPlugin dirName rf).name = dirName := by
  unfold loadedPlugin
  have h1 : ({ runRegister (mkPlugin dirName dirName) rf.calls
      with module := true } : Plugin).name =
      (runRegister (mkPlugin dirName dirName) rf.calls).name := rfl
  rw [h1, (runRegister_fields rf.calls (mkPlugin dirName dirName)).1]
  rfl

/-! ### Claim theorems: dispatch and registration -/

/-- C1:  When `call_hook` dispatches and one callback raises, the
exception is caught and logged with the owning plugin's name and the hook
name (`errorLogged` event present), and every callback of every plugin —
including all remaining ones — is still invoked exactly once (invocation
count per plugin equals its registered callback count, independent of the
failure).  `callHook` is a total function into traces, so it never
propagates a callback's exception to the caller. -/
theorem callHook_isolation (st : MState) (hook : String) (args : Args)
    (hnd : (st.plugins.map (fun kv => kv.2.name)).Nodup)
    (A : String × Plugin) (hA : A ∈ st.plugins) (f : Callback)
    (hf : f ∈ hookFuncs A.2 hook) (hraise : ((f args).2).isSome) :
    Event.errorLogged A.2.name hook ∈ callHook st hook args ∧
      ∀ B ∈ st.plugins,
        (callHook st hook args).count (Event.invoked B.2.name hook args) =
          (hookFuncs B.2 hook).length :=
  ⟨errorLogged_mem_dispatchList st.plugins hook args A hA f hf hraise,
   fun B hB => count_invoked_of_nodup st.plugins hook args hnd B hB⟩

/-- Witness plugins and callbacks for concrete instantiations. -/
def cbLog : Callback := fun args => (["B:" ++ String.intercalate "," args], none)

def cbBoom : Callback := fun _ => ([], some "boom")

def wPluginA : Plugin :=
  { name := "A", path := "A", module := true, hooks := [("x", [cbBoom])] }

def wPluginB : Plugin :=
  { name := "B", path := "B", module := true, hooks := [("x", [cbLog])] }

def wSt1 : MState :=
  { plugins := [("A", wPluginA), ("B", wPluginB)], disk := [] }

theorem callHook_isolation_witness :
    Event.errorLogged "A" "x" ∈ callHook wSt1 "x" ["p"] ∧
      ∀ B ∈ wSt1.plugins,
        (callHook wSt1 "x" ["p"]).count (Event.invoked B.2.name "x" ["p"]) =
          (hookFuncs B.2 "x").length :=
  callHook_isolation wSt1 "x" ["p"] (by decide) ("A", wPluginA)
    (List.mem_cons_self _ _) cbBoom (List.mem_cons_self _ _) (by decide)

/-- C2:  After a successful load of a plugin whose registration performed
the given `register_hook` calls, dispatching any hook `h` runs exactly the
callbacks that plugin registered for `h`, in registration order, each once,
with the given arguments, appended after the dispatch of the previously
loaded plugins; a hook with no registered callbacks contributes nothing
(the filter is empty) rather than an error. -/
theorem load_then_dispatch_order (st : MState) (dirName : String)
    (d : PluginDir) (m : PluginModule) (rf : RegisterFn)
    (hdisk : lookupA st.disk dirName = some (DiskEntry.dir d))
    (hep : d.hasEntrypoint = true) (hexec : d.exec = Except.ok m)
    (hrf : m.registerFn = some rf) (hnr : rf.raises = none)
    (hfresh : dirName ∉ keys st.plugins) (hook : String) (args : Args) :
    (loadPluginFromDir st dirName).2 = none ∧
      callHook (loadPluginFromDir st dirName).1 hook args =
        callHook st hook args ++
          ((rf.calls.filter (fun c => c.1 = hook)).map (fun c => c.2)).flatMap
            (runCallback dirName hook args) := by
  rw [loadPluginFromDir_success st dirName d m rf hdisk hep hexec hrf hnr]
  refine ⟨rfl, ?_⟩
  show dispatchList (dictInsert st.plugins dirName (loadedPlugin dirName rf))
      hook args = _
  rw [dictInsert_of_not_mem hfresh, dispatchList_append]
  have hsingle : dispatchList [(dirName, loadedPlugin dirName rf)] hook args =
      ((rf.calls.filter (fun c => c.1 = hook)).map (fun c => c.2)).flatMap
        (runCallback dirName hook args) := by
    unfold dispatchList
    simp only [List.flatMap_cons, List.flatMap_nil, List.append_nil]
    rw [hookFuncs_loadedPlugin, name_loadedPlugin]
  rw [hsingle]
  rfl

def wDirGood : PluginDir :=
  { hasEntrypoint := true,
    exec := Except.ok
      { registerFn := some { calls := [("x", cbLog)], raises := none } } }

def wSt2 : MState := { plugins := [], disk := [("pb", DiskEntry.dir wDirGood)] }

theorem load_then_dispatch_order_witness :
    (loadPluginFromDir wSt2 "pb").2 = none ∧
      callHook (loadPluginFromDir wSt2 "pb").1 "x" ["f.py"] =
        callHook wSt2 "x" ["f.py"] ++
          (([(("x" : String), cbLog)].filter (fun c => c.1 = "x")).map
            (fun c => c.2)).flatMap (runCallback "pb" "x" ["f.py"]) :=
  load_then_dispatch_order wSt2 "pb" wDirGood
    { registerFn := some { calls := [("x", cbLog)], raises := none } }
    { calls := [("x", cbLog)], raises := none }
    rfl rfl rfl rfl rfl (by decide) "x" ["f.py"]

/-- C3:  If `load_plugin_from_dir` fails — missing `plugin-main.py`,
entrypoint execution raising, missing `register` function, or `register()`
raising — the manager state is unchanged: no record is added to the plugin
table and the on-disk directory is untouched.  Moreover a directory present
but lacking the entrypoint fails specifically with the missing-entrypoint
error. -/
theorem load_failure_adds_no_record (st : MState) (dirName : String)
    (e : LoadError) (h : (loadPluginFromDir st dirName).2 = some e) :
    (loadPluginFromDir st dirName).1 = st ∧
      (∀ d, lookupA st.disk dirName = some (DiskEntry.dir d) →
        d.hasEntrypoint = false →
        (loadPluginFromDir st dirName).2 = some LoadError.missingEntrypoint) := by
  constructor
  · cases hl : lookupA st.disk dirName with
    | none => rw [load_eq_of_lookup_none hl]
    | some entry =>
      cases entry with
      | file => rw [load_eq_of_lookup_file hl]
      | dir d =>
        cases ho : loadOutcome dirName d with
        | error e2 => rw [load_eq_of_outcome_error st hl ho]
        | ok p => rw [load_eq_of_outcome_ok st hl ho] at h; simp at h
  · intro d hd hep
    have ho : loadOutcome dirName d = Except.error LoadError.missingEntrypoint := by
      unfold loadOutcome
      simp [hep]
    rw [load_eq_of_outcome_error st hd ho]

def wDirNoEp : PluginDir :=
  { hasEntrypoint := false, exec := Except.error "unused" }

def wSt3 : MState := { plugins := [], disk := [("pz", DiskEntry.dir wDirNoEp)] }

theorem load_failure_adds_no_record_witness :
    (loadPluginFromDir wSt3 "pz").1 = wSt3 ∧
      (∀ d, lookupA wSt3.disk "pz" = some (DiskEntry.dir d) →
        d.hasEntrypoint = false →
        (loadPluginFromDir wSt3 "pz").2 = some LoadError.missingEntrypoint) :=
  load_failure_adds_no_record wSt3 "pz" LoadError.missingEntrypoint (by decide)

/-- C9:  `register_hook` is total (it cannot raise for any hook name or
callback value, uninvokable callbacks included, and performs no validation
of the name): it appends the callback to the owning plugin's sequence for
that name and changes nothing else — the plugin's name, path and module and
every other hook's sequence are unchanged.  The embedding's `registerHook`
acts on the owning `Plugin` alone, as the source method touches no other
state.  The capability object's `app_name` is the constant `"Scriptor"`. -/
theorem registerHook_frame (p : Plugin) (n : String) (f : Callback) :
    (registerHook p n f).name = p.name ∧
    (registerHook p n f).path = p.path ∧
    (registerHook p n f).module = p.module ∧
    hookFuncs (registerHook p n f) n = hookFuncs p n ++ [f] ∧
    (∀ m, m ≠ n → hookFuncs (registerHook p n f) m = hookFuncs p m) ∧
    appName = "Scriptor" := by
  refine ⟨rfl, rfl, rfl, ?_, ?_, rfl⟩
  · rw [hookFuncs_registerHook]
    simp
  · intro m hm
    rw [hookFuncs_registerHook]
    simp [hm]

theorem registerHook_frame_witness :
    hookFuncs (registerHook wPluginA "y" cbLog) "y" =
        hookFuncs wPluginA "y" ++ [cbLog] ∧
      hookFuncs (registerHook wPluginA "y" cbLog) "x" =
        hookFuncs wPluginA "x" :=
  ⟨(registerHook_frame wPluginA "y" cbLog).2.2.2.1,
   (registerHook_frame wPluginA "y" cbLog).2.2.2.2.1 "x" (by decide)⟩

/-! ### Injectivity of decimal rendering, and the fresh-name loop -/

theorem digitChar_inj10 : ∀ a < 10, ∀ b < 10,
    Nat.digitChar a = Nat.digitChar b → a = b := by decide

theorem toDigitsCore_eq (fuel : Nat) : ∀ (n : Nat) (acc : List Char),
    0 < n → n ≤ fuel →
    Nat.toDigitsCore 10 fuel n acc =
      ((Nat.digits 10 n).map Nat.digitChar).reverse ++ acc := by
  induction fuel with
  | zero => intro n acc hn hf; omega
  | succ fuel ih =>
    intro n acc hn hf
    have hd : Nat.digits 10 n = n % 10 :: Nat.digits 10 (n / 10) :=
      Nat.digits_def' (by norm_num) hn
    simp only [Nat.toDigitsCore]
    by_cases h0 : n / 10 = 0
    · rw [if_pos h0, hd, h0, Nat.digits_zero]
      simp
    · rw [if_neg h0]
      have hdiv : n / 10 < n := Nat.div_lt_self hn (by norm_num)
      rw [ih (n / 10) (Nat.digitChar (n % 10) :: acc) (Nat.pos_of_ne_zero h0)
        (by omega), hd]
      simp

theorem repr_eq_of_pos {n : Nat} (hn : 0 < n) :
    Nat.repr n = (((Nat.digits 10 n).map Nat.digitChar).reverse).asString := by
  show (Nat.toDigits 10 n).asString = _
  rw [Nat.toDigits, toDigitsCore_eq (n + 1) n [] hn (Nat.le_succ n)]
  simp

theorem asString_inj {l1 l2 : List Char} (h : l1.asString = l2.asString) :
    l1 = l2 := congrArg String.data h

theorem map_digitChar_inj : ∀ l1 l2 : List Nat, (∀ x ∈ l1, x < 10) →
    (∀ x ∈ l2, x < 10) → l1.map Nat.digitChar = l2.map Nat.digitChar →
    l1 = l2 := by
  intro l1
  induction l1 with
  | nil =>
    intro l2 _ _ h
    cases l2 with
    | nil => rfl
    | cons b t => simp at h
  | cons a t ih =>
    intro l2 h1 h2 h
    cases l2 with
    | nil => simp at h
    | cons b t2 =>
      simp only [List.map_cons, List.cons.injEq] at h
      have ha : a = b := digitChar_inj10 a (h1 a (List.mem_cons_self a t)) b
        (h2 b (List.mem_cons_self b t2)) h.1
      have ht : t = t2 := ih t2 (fun x hx => h1 x (List.mem_cons_of_mem a hx))
        (fun x hx => h2 x (List.mem_cons_of_mem b hx)) h.2
      rw [ha, ht]

theorem repr_ne_of_pos {n : Nat} (hn : 0 < n) : Nat.repr n ≠ Nat.repr 0 := by
  intro h
  have h0 : Nat.repr 0 = List.asString ['0'] := rfl
  rw [repr_eq_of_pos hn, h0] at h
  have h1 : ((Nat.digits 10 n).map Nat.digitChar).reverse = ['0'] :=
    asString_inj h
  have h2 : (Nat.digits 10 n).map Nat.digitChar = ['0'] := by
    have := congrArg List.reverse h1
    simpa using this
  cases hd : Nat.digits 10 n with
  | nil => rw [hd] at h2; simp at h2
  | cons a t =>
    rw [hd] at h2
    simp only [List.map_cons, List.cons.injEq] at h2
    have ha : a < 10 := Nat.digits_lt_base (by norm_num)
      (hd ▸ List.mem_cons_self a t)
    have ha0 : a = 0 := digitChar_inj10 a ha 0 (by norm_num) h2.1
    have ht : t = [] := List.map_eq_nil_iff.mp h2.2
    have hofd := Nat.ofDigits_digits 10 n
    rw [hd, ha0, ht] at hofd
    simp [Nat.ofDigits] at hofd
    omega

theorem repr_injective : Function.Injective Nat.repr := by
  intro m n h
  rcases Nat.eq_zero_or_pos m with hm | hm
  · rcases Nat.eq_zero_or_pos n with hn | hn
    · rw [hm, hn]
    · exact absurd h.symm (hm ▸ repr_ne_of_pos hn)
  · rcases Nat.eq_zero_or_pos n with hn | hn
    · exact absurd h (hn ▸ repr_ne_of_pos hm)
    · rw [repr_eq_of_pos hm, repr_eq_of_pos hn] at h
      have h1 := congrArg List.reverse (asString_inj h)
      simp only [List.reverse_reverse] at h1
      have h2 : Nat.digits 10 m = Nat.digits 10 n :=
        map_digitChar_inj _ _
          (fun x hx => Nat.digits_lt_base (by norm_num) hx)
          (fun x hx => Nat.digits_lt_base (by norm_num) hx) h1
      rw [← Nat.ofDigits_digits 10 m, ← Nat.ofDigits_digits 10 n, h2]

theorem cand_injective (base : String) : Function.Injective (cand base) := by
  intro i j h
  unfold cand at h
  have h2 : (base ++ "_").data ++ (Nat.repr i).data =
      (base ++ "_").data ++ (Nat.repr j).data := by
    have h1 := congrArg String.data h
    simpa [String.data_append] using h1
  have h3 : (Nat.repr i).data = (Nat.repr j).data := List.append_cancel_left h2
  have h4 : Nat.repr i = Nat.repr j := by
    have : (⟨(Nat.repr i).data⟩ : String) = ⟨(Nat.repr j).data⟩ := by rw [h3]
    simpa using this
  exact repr_injective h4

theorem exists_free_cand (taken : List String) (base : String) (idx : Nat) :
    ∃ j, idx ≤ j ∧ j < idx + (taken.length + 1) ∧ cand base j ∉ taken := by
  by_contra hall
  push_neg at hall
  have hsub : (List.range' idx (taken.length + 1)).map (cand base) ⊆ taken := by
    intro x hx
    rcases List.mem_map.mp hx with ⟨j, hj, rfl⟩
    rcases List.mem_range'_1.mp hj with ⟨hj1, hj2⟩
    exact hall j hj1 hj2
  have hnd : ((List.range' idx (taken.length + 1)).map (cand base)).Nodup :=
    (List.nodup_range' idx (taken.length + 1)).map (cand_injective base)
  have hlen := (hnd.subperm hsub).length_le
  simp at hlen

theorem freshLoop_spec (taken : List String) (base : String) :
    ∀ fuel idx, (∃ j, idx ≤ j ∧ j < idx + fuel ∧ cand base j ∉ taken) →
      ∃ i, idx ≤ i ∧ cand base i ∉ taken ∧
        freshLoop taken base idx fuel = cand base i ∧
        ∀ j, idx ≤ j → j < i → cand base j ∈ taken := by
  intro fuel
  induction fuel with
  | zero =>
    rintro idx ⟨j, hj1, hj2, _⟩
    omega
  | succ fuel ih =>
    rintro idx ⟨j, hj1, hj2, hj3⟩
    by_cases hc : cand base idx ∈ taken
    · have hji : j ≠ idx := fun he => hj3 (he ▸ hc)
      obtain ⟨i, hi1, hi2, hi3, hi4⟩ :=
        ih (idx + 1) ⟨j, by omega, by omega, hj3⟩
      refine ⟨i, by omega, hi2, ?_, ?_⟩
      · simp only [freshLoop]
        rw [if_pos hc]
        exact hi3
      · intro k hk1 hk2
        rcases Nat.eq_or_lt_of_le hk1 with he | hlt
        · rw [← he]; exact hc
        · exact hi4 k (by omega) hk2
    · refine ⟨idx, Nat.le_refl idx, hc, ?_, ?_⟩
      · simp only [freshLoop]
        rw [if_neg hc]
      · intro k hk1 hk2
        omega

theorem freshName_spec (taken : List String) (base : String) :
    freshName taken base ∉ taken ∧
      (base ∉ taken → freshName taken base = base) ∧
      (base ∈ taken → ∃ i, 1 ≤ i ∧ freshName taken base = cand base i ∧
        cand base i ∉ taken ∧ ∀ j, 1 ≤ j → j < i → cand base j ∈ taken) := by
  by_cases hb : base ∈ taken
  · obtain ⟨i, hi1, hi2, hi3, hi4⟩ :=
      freshLoop_spec taken base (taken.length + 1) 1
        (exists_free_cand taken base 1)
    unfold freshName
    rw [if_pos hb]
    exact ⟨hi3 ▸ hi2, fun h => absurd hb h, fun _ => ⟨i, hi1, hi3, hi2, hi4⟩⟩
  · unfold freshName
    rw [if_neg hb]
    exact ⟨hb, fun _ => rfl, fun h => absurd h hb⟩

/-! ### Install characterization -/

theorem installPlugin_eq (st : MState) (a : Archive) :
    installPlugin st a =
      if a.present then
        if a.contents.hasEntrypoint then
          match loadOutcome (freshName (keys st.disk) a.stem) a.contents with
          | Except.error e =>
            ({ st with disk := st.disk ++
                [(freshName (keys st.disk) a.stem, DiskEntry.dir a.contents)] },
              Except.error (InstallError.loadFailed e))
          | Except.ok p =>
            ({ st with
                disk := st.disk ++
                  [(freshName (keys st.disk) a.stem, DiskEntry.dir a.contents)],
                plugins := dictInsert st.plugins
                  (freshName (keys st.disk) a.stem) p },
              Except.ok (freshName (keys st.disk) a.stem))
        else (st, Except.error InstallError.packageFormat)
      else (st, Except.error InstallError.archiveMissing) := by
  by_cases hp : a.present = true
  · by_cases hep : a.contents.hasEntrypoint = true
    · have hfresh : freshName (keys st.disk) a.stem ∉ keys st.disk :=
        (freshName_spec (keys st.disk) a.stem).1
      have hnone : lookupA st.disk (freshName (keys st.disk) a.stem) = none :=
        lookupA_eq_none_iff.mpr hfresh
      have hlook : lookupA (st.disk ++
          [(freshName (keys st.disk) a.stem, DiskEntry.dir a.contents)])
          (freshName (keys st.disk) a.stem) =
          some (DiskEntry.dir a.contents) := by
        rw [lookupA_append_right hnone]
        simp [lookupA]
      simp only [installPlugin, hp, hep, eq_self_iff_true, if_true]
      cases ho : loadOutcome (freshName (keys st.disk) a.stem) a.contents with
      | error e =>
        rw [load_eq_of_outcome_error { st with disk := st.disk ++
          [(freshName (keys st.disk) a.stem, DiskEntry.dir a.contents)] }
          hlook ho]
      | ok p =>
        rw [load_eq_of_outcome_ok { st with disk := st.disk ++
          [(freshName (keys st.disk) a.stem, DiskEntry.dir a.contents)] }
          hlook ho]
    · simp [installPlugin, hp, hep]
  · simp [installPlugin, hp]

/-! ### Claim theorems: install, uninstall, partial registration -/

/-- C5:  `install_plugin` fails with the package-format error when the
archive lacks `plugin-main.py` at its root (before any extraction); when
extraction and the subsequent single-plugin load both succeed it returns
the destination directory name; and a failing load's error is propagated to
the caller as `loadFailed`, not swallowed. -/
theorem install_error_and_result (st : MState) (a : Archive) :
    (a.present = true → a.contents.hasEntrypoint = false →
      installPlugin st a = (st, Except.error InstallError.packageFormat)) ∧
    (∀ p, a.present = true → a.contents.hasEntrypoint = true →
      loadOutcome (freshName (keys st.disk) a.stem) a.contents = Except.ok p →
      (installPlugin st a).2 = Except.ok (freshName (keys st.disk) a.stem)) ∧
    (∀ e, a.present = true → a.contents.hasEntrypoint = true →
      loadOutcome (freshName (keys st.disk) a.stem) a.contents =
        Except.error e →
      (installPlugin st a).2 = Except.error (InstallError.loadFailed e)) := by
  refine ⟨?_, ?_, ?_⟩
  · intro hp hep
    rw [installPlugin_eq]
    simp [hp, hep]
  · intro p hp hep ho
    rw [installPlugin_eq]
    simp [hp, hep, ho]
  · intro e hp hep ho
    rw [installPlugin_eq]
    simp [hp, hep, ho]

def wArchBad : Archive :=
  { present := true, stem := "b",
    contents := { hasEntrypoint := false, exec := Except.error "unused" } }

def wArchGood : Archive := { present := true, stem := "g", contents := wDirGood }

theorem install_error_and_result_witness :
    installPlugin wSt1 wArchBad = (wSt1, Except.error InstallError.packageFormat) ∧
      (installPlugin wSt1 wArchGood).2 = Except.ok "g" :=
  ⟨(install_error_and_result wSt1 wArchBad).1 rfl rfl,
   (install_error_and_result wSt1 wArchGood).2.1
     (loadedPlugin "g" { calls := [("x", cbLog)], raises := none })
     rfl rfl rfl⟩

/-- C6:  `uninstall_plugin(name)` fails with the not-found error when no
plugin of that name is loaded, leaving both the plugin table and the disk
unchanged; when the name is loaded (and its directory exists) it removes
the record from the table and deletes its directory from disk. -/
theorem uninstall_notFound_or_removes (st : MState) (name : String) :
    (lookupA st.plugins name = none →
      uninstallPlugin st name = (st, Except.error UninstallError.notFound)) ∧
    (∀ p, lookupA st.plugins name = some p → p.path ∈ keys st.disk →
      uninstallPlugin st name =
        ({ plugins := dictErase st.plugins name,
           disk := dictErase st.disk p.path }, Except.ok true)) := by
  constructor
  · intro h
    unfold uninstallPlugin
    rw [h]
  · intro p hp hd
    unfold uninstallPlugin
    rw [hp]
    simp only []
    rw [if_pos hd]

def wStU : MState :=
  { plugins := [("A", wPluginA)], disk := [("A", DiskEntry.dir wDirGood)] }

theorem uninstall_notFound_or_removes_witness :
    uninstallPlugin wStU "zzz" = (wStU, Except.error UninstallError.notFound) ∧
      uninstallPlugin wStU "A" =
        ({ plugins := dictErase wStU.plugins "A",
           disk := dictErase wStU.disk "A" }, Except.ok true) :=
  ⟨(uninstall_notFound_or_removes wStU "zzz").1 rfl,
   (uninstall_notFound_or_removes wStU "A").2 wPluginA rfl (by decide)⟩

/-- Directory whose `register` registers a callback for hook `"x"` and then
raises. -/
def wDirPartialReg : PluginDir :=
  { hasEntrypoint := true,
    exec := Except.ok
      { registerFn := some { calls := [("x", cbLog)], raises := some "boom" } } }

def wSt8 : MState := { plugins := [], disk := [("pp", DiskEntry.dir wDirPartialReg)] }

/-- C8 counterexample: a directory whose `register` registers a callback for
hook `"x"` and then raises.  The load fails with the registration error,
the plugin table stays empty, and dispatching `"x"` invokes nothing — the
hooks registered before the failure are NOT observable to `call_hook`,
contrary to the claim. -/
theorem aborted_registration_not_dispatchable :
    (loadPluginFromDir wSt8 "pp").2 = some (LoadError.registerFailed "boom") ∧
      (loadPluginFromDir wSt8 "pp").1.plugins = [] ∧
      callHook (loadPluginFromDir wSt8 "pp").1 "x" ["p"] = [] ∧
      Event.invoked "pp" "x" ["p"] ∉
        callHook (loadPluginFromDir wSt8 "pp").1 "x" ["p"] := by
  refine ⟨rfl, rfl, rfl, ?_⟩
  intro h
  rw [show callHook (loadPluginFromDir wSt8 "pp").1 "x" ["p"] = [] from rfl] at h
  cases h

/-- C8 amended:  If a plugin's registration function registers hooks
and then raises, the hooks it registered before the failure remain recorded
on the in-construction plugin record (the record's hook map holds exactly
the calls made), but the load fails with a registration error and the
record is never added to the plugin table, so those callbacks are NOT
observable to subsequent hook dispatch: `call_hook` traces are unchanged. -/
theorem aborted_registration_retention (st : MState) (dirName : String)
    (d : PluginDir) (m : PluginModule) (rf : RegisterFn) (msg : String)
    (hdisk : lookupA st.disk dirName = some (DiskEntry.dir d))
    (hep : d.hasEntrypoint = true) (hexec : d.exec = Except.ok m)
    (hrf : m.registerFn = some rf) (hraise : rf.raises = some msg) :
    loadPluginFromDir st dirName = (st, some (LoadError.registerFailed msg)) ∧
      (∀ hook, hookFuncs (runRegister (mkPlugin dirName dirName) rf.calls) hook =
        (rf.calls.filter (fun c => c.1 = hook)).map (fun c => c.2)) ∧
      (∀ hook args, callHook (loadPluginFromDir st dirName).1 hook args =
        callHook st hook args) := by
  have ho : loadOutcome dirName d = Except.error (LoadError.registerFailed msg) := by
    unfold loadOutcome
    simp [hep, hexec, hrf, hraise]
  have h1 : loadPluginFromDir st dirName =
      (st, some (LoadError.registerFailed msg)) := load_eq_of_outcome_error st hdisk ho
  refine ⟨h1, ?_, ?_⟩
  · intro hook
    rw [hookFuncs_runRegister]
    rfl
  · intro hook args
    rw [h1]

theorem aborted_registration_retention_witness :
    loadPluginFromDir wSt8 "pp" = (wSt8, some (LoadError.registerFailed "boom")) ∧
      (∀ hook, hookFuncs (runRegister (mkPlugin "pp" "pp")
          [(("x" : String), cbLog)]) hook =
        ([(("x" : String), cbLog)].filter (fun c => c.1 = hook)).map
          (fun c => c.2)) ∧
      (∀ hook args, callHook (loadPluginFromDir wSt8 "pp").1 hook args =
        callHook wSt8 hook args) :=
  aborted_registration_retention wSt8 "pp" wDirPartialReg
    { registerFn := some { calls := [("x", cbLog)], raises := some "boom" } }
    { calls := [("x", cbLog)], raises := some "boom" } "boom"
    rfl rfl rfl rfl rfl

/-! ### Discovery characterization -/

/-- Table contribution of one root entry during discovery. -/
def discoverRecord (e : String × DiskEntry) : Option (String × Plugin) :=
  match e.2 with
  | DiskEntry.file => none
  | DiskEntry.dir d =>
    match loadOutcome e.1 d with
    | Except.ok p => some (e.1, p)
    | Except.error _ => none

/-- Failure-log contribution of one root entry during discovery. -/
def discoverFailure (e : String × DiskEntry) : Option (String × LoadError) :=
  match e.2 with
  | DiskEntry.file => none
  | DiskEntry.dir d =>
    match loadOutcome e.1 d with
    | Except.ok _ => none
    | Except.error er => some (e.1, er)

theorem loadAll_foldl_spec (disk : List (String × DiskEntry)) :
    ∀ (L : List (String × DiskEntry)) (st₀ : MState)
      (log₀ : List (String × LoadError)),
      st₀.disk = disk →
      (∀ e ∈ L, lookupA disk e.1 = some e.2) →
      (L.map (fun e => e.1)).Nodup →
      (∀ e ∈ L, e.1 ∉ keys st₀.plugins) →
      L.foldl loadAllStep (st₀, log₀) =
        ({ st₀ with plugins := st₀.plugins ++ L.filterMap discoverRecord },
         log₀ ++ L.filterMap discoverFailure) := by
  intro L
  induction L with
  | nil =>
    intro st₀ log₀ _ _ _ _
    simp
  | cons e L ih =>
    intro st₀ log₀ hdisk hsub hnd hfresh
    have hsubhead : lookupA disk e.1 = some e.2 :=
      hsub e (List.mem_cons_self e L)
    have hnd2 : e.1 ∉ L.map (fun e => e.1) ∧ (L.map (fun e => e.1)).Nodup :=
      List.nodup_cons.mp (by simpa using hnd)
    have hsubtail : ∀ x ∈ L, lookupA disk x.1 = some x.2 :=
      fun x hx => hsub x (List.mem_cons_of_mem e hx)
    rw [List.foldl_cons]
    cases he : e.2 with
    | file =>
      have hstep : loadAllStep (st₀, log₀) e = (st₀, log₀) := by
        simp only [loadAllStep, he]
      rw [hstep, ih st₀ log₀ hdisk hsubtail hnd2.2
        (fun x hx => hfresh x (List.mem_cons_of_mem e hx))]
      simp only [List.filterMap_cons, discoverRecord, discoverFailure, he]
    | dir d =>
      have hlookup : lookupA st₀.disk e.1 = some (DiskEntry.dir d) := by
        rw [hdisk, hsubhead, he]
      cases ho : loadOutcome e.1 d with
      | error er =>
        have hload := load_eq_of_outcome_error st₀ hlookup ho
        have hstep : loadAllStep (st₀, log₀) e = (st₀, log₀ ++ [(e.1, er)]) := by
          simp only [loadAllStep, he, hload]
        rw [hstep, ih st₀ (log₀ ++ [(e.1, er)]) hdisk hsubtail hnd2.2
          (fun x hx => hfresh x (List.mem_cons_of_mem e hx))]
        simp only [List.filterMap_cons, discoverRecord, discoverFailure, he, ho,
          List.append_assoc, List.singleton_append]
      | ok p =>
        have hload := load_eq_of_outcome_ok st₀ hlookup ho
        have hfreshhead : e.1 ∉ keys st₀.plugins :=
          hfresh e (List.mem_cons_self e L)
        have hdi : dictInsert st₀.plugins e.1 p = st₀.plugins ++ [(e.1, p)] :=
          dictInsert_of_not_mem hfreshhead p
        have hstep : loadAllStep (st₀, log₀) e =
            ({ st₀ with plugins := st₀.plugins ++ [(e.1, p)] }, log₀) := by
          simp only [loadAllStep, he, hload, hdi]
        have hfresh2 : ∀ x ∈ L, x.1 ∉
            keys ({ st₀ with plugins := st₀.plugins ++ [(e.1, p)] } : MState).plugins := by
          intro x hx hmem
          have hkeys : keys (st₀.plugins ++ [(e.1, p)]) =
              keys st₀.plugins ++ [e.1] := by
            simp [keys]
          rw [hkeys] at hmem
          rcases List.mem_append.mp hmem with hmem | hmem
          · exact hfresh x (List.mem_cons_of_mem e hx) hmem
          · have hx1 : x.1 = e.1 := List.mem_singleton.mp hmem
            exact hnd2.1 (hx1 ▸ List.mem_map_of_mem (fun e => e.1) hx)
        rw [hstep, ih { st₀ with plugins := st₀.plugins ++ [(e.1, p)] } log₀
          hdisk hsubtail hnd2.2 hfresh2]
        simp only [List.filterMap_cons, discoverRecord, discoverFailure, he, ho,
          List.append_assoc, List.singleton_append]

theorem loadAll_characterization (st : MState)
    (hnd : (keys st.disk).Nodup) :
    (loadAllPlugins st).1.disk = st.disk ∧
      (loadAllPlugins st).1.plugins = st.disk.filterMap discoverRecord ∧
      (loadAllPlugins st).2 = st.disk.filterMap discoverFailure := by
  have h := loadAll_foldl_spec st.disk st.disk { st with plugins := [] } []
    rfl (fun e he => lookupA_mem_of_nodup hnd he) (by simpa [keys] using hnd)
    (fun e _ hm => by simp [keys] at hm)
  unfold loadAllPlugins
  rw [h]
  exact ⟨rfl, by simp, by simp⟩

/-- C7:  `load_all_plugins` first clears the table (all prior records are
dropped — the result below does not depend on `st.plugins` at all, and no
teardown is invoked), then attempts a load on every entry of the plugins
root in order, skipping non-directory entries; each per-directory failure
is caught and appended to the log without stopping the iteration, so the
final table holds exactly the plugins that loaded successfully in this
pass, and the disk is untouched. -/
theorem loadAll_exactly_successes (st : MState)
    (hnd : (keys st.disk).Nodup) :
    (loadAllPlugins st).1.disk = st.disk ∧
      (loadAllPlugins st).1.plugins = st.disk.filterMap discoverRecord ∧
      (loadAllPlugins st).2 = st.disk.filterMap discoverFailure :=
  loadAll_characterization st hnd

def wStMix : MState :=
  { plugins := [("old", wPluginB)],
    disk := [("good", DiskEntry.dir wDirGood), ("bad", DiskEntry.dir wDirNoEp),
      ("f", DiskEntry.file)] }

theorem loadAll_exactly_successes_witness :
    (loadAllPlugins wStMix).1.disk = wStMix.disk ∧
      (loadAllPlugins wStMix).1.plugins = wStMix.disk.filterMap discoverRecord ∧
      (loadAllPlugins wStMix).2 = wStMix.disk.filterMap discoverFailure :=
  loadAll_exactly_successes wStMix (by decide)

/-- C10:  Install is not atomic: when extraction succeeds but the load of
the extracted directory fails, the error propagates as `loadFailed`, the
extracted destination directory remains on disk under the plugins root, and
no record is added to the plugin table; a later `load_all_plugins` attempts
that leftover directory again — it shows up in the reload's failure log. -/
theorem install_failure_leaves_directory (st : MState) (a : Archive)
    (e : LoadError) (hnd : (keys st.disk).Nodup) (hp : a.present = true)
    (hep : a.contents.hasEntrypoint = true)
    (hfail : loadOutcome (freshName (keys st.disk) a.stem) a.contents =
      Except.error e) :
    installPlugin st a =
      ({ st with disk := st.disk ++
          [(freshName (keys st.disk) a.stem, DiskEntry.dir a.contents)] },
        Except.error (InstallError.loadFailed e)) ∧
      (installPlugin st a).1.plugins = st.plugins ∧
      (freshName (keys st.disk) a.stem, e) ∈
        (loadAllPlugins (installPlugin st a).1).2 := by
  have h1 : installPlugin st a =
      ({ st with disk := st.disk ++
          [(freshName (keys st.disk) a.stem, DiskEntry.dir a.contents)] },
        Except.error (InstallError.loadFailed e)) := by
    rw [installPlugin_eq]
    simp [hp, hep, hfail]
  refine ⟨h1, by rw [h1], ?_⟩
  rw [h1]
  have hfresh : freshName (keys st.disk) a.stem ∉ keys st.disk :=
    (freshName_spec (keys st.disk) a.stem).1
  have hnd2 : (keys (st.disk ++
      [(freshName (keys st.disk) a.stem, DiskEntry.dir a.contents)])).Nodup := by
    have hkeys : keys (st.disk ++
        [(freshName (keys st.disk) a.stem, DiskEntry.dir a.contents)]) =
        keys st.disk ++ [freshName (keys st.disk) a.stem] := by
      simp [keys]
    rw [hkeys]
    rw [List.nodup_append]
    exact ⟨hnd, List.nodup_singleton _, by
      intro x hx hxs
      rw [List.mem_singleton.mp hxs] at hx
      exact hfresh hx⟩
  have h2 := (loadAll_characterization
    ({ st with disk := st.disk ++
      [(freshName (keys st.disk) a.stem, DiskEntry.dir a.contents)] })
    hnd2).2.2
  rw [h2]
  refine List.mem_filterMap.mpr
    ⟨(freshName (keys st.disk) a.stem, DiskEntry.dir a.contents), ?_, ?_⟩
  · exact List.mem_append.mpr (Or.inr (List.mem_singleton.mpr rfl))
  · simp only [discoverFailure, hfail]

/-- C4:  A successful install names its destination after the archive's
stem, suffixing `_1`, `_2`, … in increasing order until the first free name
when the stem is taken, so the destination is fresh: every pre-existing
disk entry is still found unchanged afterwards, the new plugin record is
appended after the existing table entries, and every previously loaded
plugin's dispatch trace is preserved as a prefix of the new trace (its
hooks remain intact and dispatchable). -/
theorem install_never_overwrites (st : MState) (a : Archive) (dest : String)
    (st₂ : MState) (hsub : ∀ kv ∈ st.plugins, kv.1 ∈ keys st.disk)
    (h : installPlugin st a = (st₂, Except.ok dest)) :
    dest = freshName (keys st.disk) a.stem ∧
    dest ∉ keys st.disk ∧
    (a.stem ∉ keys st.disk → dest = a.stem) ∧
    (a.stem ∈ keys st.disk → ∃ i, 1 ≤ i ∧ dest = cand a.stem i ∧
      ∀ j, 1 ≤ j → j < i → cand a.stem j ∈ keys st.disk) ∧
    st₂.disk = st.disk ++ [(dest, DiskEntry.dir a.contents)] ∧
    (∀ k v, lookupA st.disk k = some v → lookupA st₂.disk k = some v) ∧
    (∃ p, st₂.plugins = st.plugins ++ [(dest, p)]) ∧
    (∀ hook args, ∃ tail,
      callHook st₂ hook args = callHook st hook args ++ tail) := by
  rw [installPlugin_eq] at h
  by_cases hp : a.present = true
  · by_cases hep : a.contents.hasEntrypoint = true
    · rw [if_pos hp, if_pos hep] at h
      cases ho : loadOutcome (freshName (keys st.disk) a.stem) a.contents with
      | error e =>
        rw [ho] at h
        simp at h
      | ok p =>
        rw [ho] at h
        simp only [Prod.mk.injEq, Except.ok.injEq] at h
        obtain ⟨hst, hdest⟩ := h
        subst hdest
        obtain ⟨hfresh, hbase, hcoll⟩ := freshName_spec (keys st.disk) a.stem
        have hfp : freshName (keys st.disk) a.stem ∉ keys st.plugins := by
          intro hm
          rcases List.mem_map.mp hm with ⟨kv, hkv, he⟩
          exact hfresh (he ▸ hsub kv hkv)
        have hplug : st₂.plugins =
            st.plugins ++ [(freshName (keys st.disk) a.stem, p)] := by
          rw [← hst]
          exact dictInsert_of_not_mem hfp p
        refine ⟨rfl, hfresh, hbase, ?_, ?_, ?_, ⟨p, hplug⟩, ?_⟩
        · intro hm
          obtain ⟨i, h1, h2, _, h4⟩ := hcoll hm
          exact ⟨i, h1, h2, h4⟩
        · rw [← hst]
        · intro k v hk
          rw [← hst]
          exact lookupA_append_left hk
        · intro hook args
          refine ⟨dispatchList [(freshName (keys st.disk) a.stem, p)] hook args, ?_⟩
          show dispatchList st₂.plugins hook args = _
          rw [hplug, dispatchList_append]
          rfl
    · rw [if_pos hp, if_neg hep] at h
      simp at h
  · rw [if_neg hp] at h
    simp at h

def wStC4 : MState :=
  { plugins := [("n", wPluginB)], disk := [("n", DiskEntry.dir wDirGood)] }

def wArchN : Archive := { present := true, stem := "n", contents := wDirGood }

theorem install_never_overwrites_witness :
    "n_1" = freshName (keys wStC4.disk) wArchN.stem ∧
    "n_1" ∉ keys wStC4.disk ∧
    (wArchN.stem ∉ keys wStC4.disk → "n_1" = wArchN.stem) ∧
    (wArchN.stem ∈ keys wStC4.disk → ∃ i, 1 ≤ i ∧ "n_1" = cand wArchN.stem i ∧
      ∀ j, 1 ≤ j → j < i → cand wArchN.stem j ∈ keys wStC4.disk) ∧
    (installPlugin wStC4 wArchN).1.disk =
      wStC4.disk ++ [("n_1", DiskEntry.dir wArchN.contents)] ∧
    (∀ k v, lookupA wStC4.disk k = some v →
      lookupA (installPlugin wStC4 wArchN).1.disk k = some v) ∧
    (∃ p, (installPlugin wStC4 wArchN).1.plugins =
      wStC4.plugins ++ [("n_1", p)]) ∧
    (∀ hook args, ∃ tail,
      callHook (installPlugin wStC4 wArchN).1 hook args =
        callHook wStC4 hook args ++ tail) :=
  install_never_overwrites wStC4 wArchN "n_1" (installPlugin wStC4 wArchN).1
    (by
      intro kv hkv
      have hk : kv = ("n", wPluginB) := List.mem_singleton.mp hkv
      rw [hk]
      decide)
    rfl

def wDirExecFail : PluginDir :=
  { hasEntrypoint := true, exec := Except.error "SyntaxError" }

def wArchFail : Archive :=
  { present := true, stem := "q", contents := wDirExecFail }

theorem install_failure_leaves_directory_witness :
    installPlugin wSt1 wArchFail =
      ({ wSt1 with disk := wSt1.disk ++
          [(freshName (keys wSt1.disk) wArchFail.stem,
            DiskEntry.dir wArchFail.contents)] },
        Except.error (InstallError.loadFailed (LoadError.execFailed "SyntaxError"))) ∧
      (installPlugin wSt1 wArchFail).1.plugins = wSt1.plugins ∧
      (freshName (keys wSt1.disk) wArchFail.stem,
          LoadError.execFailed "SyntaxError") ∈
        (loadAllPlugins (installPlugin wSt1 wArchFail).1).2 :=
  install_failure_leaves_directory wSt1 wArchFail
    (LoadError.execFailed "SyntaxError") (by decide) rfl rfl rfl

end Scriptor
